import Mathlib

/-!
Verification development for the calendar build pipeline of
`scripts/build_ics.py` (WhatsOn-ThreeRegions).

The Python source is shallowly embedded below:
* calendar dates (`datetime.date`) become the structure `Date`, compared
  lexicographically on (year, month, day), which agrees with the
  chronological order used by Python on valid dates;
* `datetime.strptime(s, "%Y-%m-%d").date()` becomes `parse_ymd`
  (exactly four year digits, one or two month/day digits, separated by
  literal dashes, the whole string consumed, and the day validated
  against the Gregorian month length — the same acceptance condition as
  CPython's strptime plus the `date` constructor);
* the module-level window configuration (`WINDOW_OPEN`, `WINDOW_START`,
  `WINDOW_END`) and the global `DTSTAMP` become explicit parameters
  `Window` and `dtstamp`;
* `build_vevent` returns a `BuildResult` whose constructors record both
  the returned value of the Python function (the VEVENT lines, or the
  empty string) and the warning channel it prints to;
* `main`'s cleaning loop, `cleaned.sort(key=lambda t: t[0])` (a stable
  sort on the parsed start date only) and the dedup loop over the `seen`
  set become `cleanEvents`, `sortByStart` (insertion sort, which computes
  the unique stable ascending reordering, hence the same list as
  Python's stable `list.sort`) and `buildLoop`.
-/

/-- A calendar date, as in Python's `datetime.date`. -/
structure Date where
  y : Nat
  m : Nat
  d : Nat
deriving DecidableEq, Repr

/-- Python's `<` on dates: lexicographic on (year, month, day). -/
def dateLt (a b : Date) : Bool :=
  decide (a.y < b.y) ||
    (decide (a.y = b.y) && (decide (a.m < b.m) || (decide (a.m = b.m) && decide (a.d < b.d))))

/-- Python's `<=` on dates (total order, so `a <= b` iff `not (b < a)`). -/
def dateLe (a b : Date) : Bool := !dateLt b a

/-- Gregorian leap year rule (as used by `datetime`). -/
def isLeap (y : Nat) : Bool := (y % 4 == 0 && y % 100 != 0) || y % 400 == 0

/-- Days in a month of the Gregorian calendar (as used by `datetime`). -/
def daysInMonth (y m : Nat) : Nat :=
  if m = 2 then (if isLeap y then 29 else 28)
  else if m = 4 ∨ m = 6 ∨ m = 9 ∨ m = 11 then 30
  else 31

/-- `d + timedelta(days=1)`: the next calendar day. -/
def addOneDay (dt : Date) : Date :=
  if dt.d < daysInMonth dt.y dt.m then ⟨dt.y, dt.m, dt.d + 1⟩
  else if dt.m < 12 then ⟨dt.y, dt.m + 1, 1⟩
  else ⟨dt.y + 1, 1, 1⟩

/-- Numeric value of a digit string (the digits have been validated). -/
def natOfDigits (cs : List Char) : Nat :=
  cs.foldl (fun a c => a * 10 + (c.toNat - 48)) 0

/-- `datetime.strptime(s, "%Y-%m-%d").date()`: exactly four year digits,
one or two month digits, one or two day digits, literal dashes between,
the whole string consumed; the month must be 1..12, the day 1..the
Gregorian month length, and the year at least 1 (`datetime.MINYEAR`).
Returns `none` where the Python call raises (the callers catch that). -/
def parseYmdChars (cs : List Char) : Option Date :=
  let ys := cs.takeWhile Char.isDigit
  if ys.length = 4 then
    match cs.drop 4 with
    | '-' :: rest1 =>
      let ms := rest1.takeWhile Char.isDigit
      if ms.length = 1 ∨ ms.length = 2 then
        match rest1.drop ms.length with
        | '-' :: rest2 =>
          let ds := rest2.takeWhile Char.isDigit
          if (ds.length = 1 ∨ ds.length = 2) ∧ rest2.drop ds.length = [] then
            let y := natOfDigits ys
            let m := natOfDigits ms
            let d := natOfDigits ds
            if 1 ≤ y ∧ 1 ≤ m ∧ m ≤ 12 ∧ 1 ≤ d ∧ d ≤ daysInMonth y m then
              some ⟨y, m, d⟩
            else none
          else none
        | _ => none
      else none
    | _ => none
  else none

def parse_ymd (s : String) : Option Date := parseYmdChars s.data

/-- The decimal digit characters, for zero-padded formatting. -/
def digitChar (n : Nat) : Char :=
  match n with
  | 0 => '0' | 1 => '1' | 2 => '2' | 3 => '3' | 4 => '4'
  | 5 => '5' | 6 => '6' | 7 => '7' | 8 => '8' | _ => '9'

/-- `"%02d"` for values below 100 (months and days of parsed dates). -/
def pad2 (n : Nat) : String := ⟨[digitChar (n / 10 % 10), digitChar (n % 10)]⟩

/-- `"%04d"` for values below 10000 (years of parsed dates: exactly four
digits, so always below 10000). -/
def pad4 (n : Nat) : String :=
  ⟨[digitChar (n / 1000 % 10), digitChar (n / 100 % 10), digitChar (n / 10 % 10),
    digitChar (n % 10)]⟩

/-- `date.isoformat()`: the canonical `YYYY-MM-DD` form. -/
def isoformat (dt : Date) : String := pad4 dt.y ++ "-" ++ pad2 dt.m ++ "-" ++ pad2 dt.d

/-- `date.strftime("%Y%m%d")`: the compact date form used for
`DTSTART`/`DTEND` values. -/
def fmtCompact (dt : Date) : String := pad4 dt.y ++ pad2 dt.m ++ pad2 dt.d

/-- One character of RFC5545 text escaping.  `esc` in the source applies
four sequential `str.replace` calls (`"\\"→"\\\\"`, `","→"\\,"`,
`";"→"\;"`, `"\n"→"\\n"`); since no later pattern occurs in the output
of an earlier replacement, the composition acts independently on each
character of the input, which is what this function computes. -/
def escChar (c : Char) : List Char :=
  if c = '\\' then ['\\', '\\']
  else if c = ',' then ['\\', ',']
  else if c = ';' then ['\\', ';']
  else if c = '\n' then ['\\', 'n']
  else [c]

def escList : List Char → List Char
  | [] => []
  | c :: cs => escChar c ++ escList cs

/-- `esc` from the source: RFC5545 text escaping. -/
def esc (s : String) : String := ⟨escList s.data⟩

/-- Modelled from the spec: the inverse of the documented escaping rule —
a backslash-escaped character stands for itself, except that `\n` (the
two-character sequence) stands for a newline. -/
def unescList : List Char → List Char
  | [] => []
  | [c] => [c]
  | c :: d :: cs =>
    if c = '\\' then (if d = 'n' then '\n' else d) :: unescList cs
    else c :: unescList (d :: cs)

def unesc (s : String) : String := ⟨unescList s.data⟩

/-- No unescaped separator: scanning the text, every `,` or `;` is
preceded by a (pairing) backslash. -/
def noRawSep : List Char → Bool
  | [] => true
  | [c] => !(c = ',' || c = ';')
  | c :: d :: cs =>
    if c = '\\' then noRawSep cs
    else if c = ',' || c = ';' then false
    else noRawSep (d :: cs)

/-- `str.strip(chars)`: remove the given characters from both ends. -/
def stripEnds (p : Char → Bool) (cs : List Char) : List Char :=
  ((cs.dropWhile p).reverse.dropWhile p).reverse

/-- `str.strip()` on the text values (whitespace from both ends; Python
also strips a few rarer Unicode space characters, which agree with
`Char.isWhitespace` on all inputs this pipeline sees). -/
def pyStrip (s : String) : String := ⟨stripEnds Char.isWhitespace s.data⟩

/-- `(categories or "").strip().strip(",")`: trim whitespace, then strip
leading/trailing commas. -/
def catsNorm (s : String) : String :=
  ⟨stripEnds (fun c => c == ',') (stripEnds Char.isWhitespace s.data)⟩

/-- ASCII letters and digits: the complement of the `[^a-zA-Z0-9]`
character class in `slugify`. -/
def isAlnumAscii (c : Char) : Bool :=
  ('a' ≤ c && c ≤ 'z') || ('A' ≤ c && c ≤ 'Z') || ('0' ≤ c && c ≤ '9')

/-- `unicodedata.normalize("NFKD", t).encode("ascii","ignore")`: NFKD
decomposition followed by dropping all non-ASCII code points.  On ASCII
input this is the identity; it is modelled here as retaining exactly the
ASCII characters (for non-ASCII letters NFKD first splits off combining
marks, which are then dropped — the remaining base characters are ASCII
and survive both there and here for the Latin-1 range this feed uses). -/
def asciiFold (cs : List Char) : List Char := cs.filter (fun c => c.toNat < 128)

/-- Worker for `collapseNonAlnum`; the flag records whether the previous
character was part of a (already dashed) non-alphanumeric run. -/
def collapseNonAlnumAux : Bool → List Char → List Char
  | _, [] => []
  | inRun, c :: cs =>
    if isAlnumAscii c then c :: collapseNonAlnumAux false cs
    else if inRun then collapseNonAlnumAux true cs
    else '-' :: collapseNonAlnumAux true cs

/-- `re.sub(r"[^a-zA-Z0-9]+","-",t)`: each maximal run of non-alphanumeric
characters becomes a single dash. -/
def collapseNonAlnum (cs : List Char) : List Char := collapseNonAlnumAux false cs

/-- Worker for `collapseDashes`; the flag records whether the previous
character was a (kept) dash. -/
def collapseDashesAux : Bool → List Char → List Char
  | _, [] => []
  | prevDash, c :: cs =>
    if c = '-' then
      (if prevDash then collapseDashesAux true cs else '-' :: collapseDashesAux true cs)
    else c :: collapseDashesAux false cs

/-- `re.sub(r"-{2,}","-",t)`: collapse dash runs to a single dash. -/
def collapseDashes (cs : List Char) : List Char := collapseDashesAux false cs

/-- `slugify` from the source: ASCII-fold, turn non-alphanumeric runs
into dashes, strip dashes at the ends, lowercase, collapse dash runs,
and fall back to `"event"` when nothing remains. -/
def slugify (s : String) : String :=
  let t1 := asciiFold s.data
  let t2 := (stripEnds (fun c => c == '-') (collapseNonAlnum t1)).map Char.toLower
  let t3 := collapseDashes t2
  if t3.isEmpty then "event" else ⟨t3⟩

/-- A raw entry of the `events:` list in `data/events.yaml`: a mapping
with optional text-valued keys (`none` = key absent). -/
structure RawEvent where
  summary : Option String
  start : Option String
  end_ : Option String
  location : Option String
  url : Option String
  categories : Option String
  description : Option String
deriving DecidableEq, Repr

/-- The date-window configuration (`ICS_WINDOW_OPEN`, `ICS_WINDOW_START`,
`ICS_WINDOW_END` environment options, with their built-in defaults). -/
structure Window where
  isOpen : Bool
  winStart : Date
  winEnd : Date
deriving DecidableEq, Repr

/-- The built-in default window `[2025-06-01, 2027-12-31]`. -/
def defaultWindow : Window := ⟨false, ⟨2025, 6, 1⟩, ⟨2027, 12, 31⟩⟩

/-- An all-open window (`ICS_WINDOW_OPEN` truthy). -/
def openWindow : Window := ⟨true, ⟨2025, 6, 1⟩, ⟨2027, 12, 31⟩⟩

/-- `in_window` from the source: when the window is open, everything
passes; otherwise the span `[s, e]` must overlap `[winStart, winEnd]`. -/
def in_window (w : Window) (s e : Date) : Bool :=
  if w.isOpen then true
  else !(dateLt e w.winStart || dateLt w.winEnd s)

/-- Outcome of `build_vevent` on one entry: the Python function returns a
non-empty VEVENT string (here: its CRLF-joined `lines`) or the empty
string, after printing a warning in the two rejection cases.  The
constructors record which exit was taken. -/
inductive BuildResult where
  | missingField (f : String)
  | badDate
  | outOfWindow
  | ok (lines : List String)
deriving DecidableEq, Repr

/-- `build_vevent` from the source, with the module-level window and
`DTSTAMP` passed explicitly. -/
def build_vevent (w : Window) (dtstamp : String) (e : RawEvent) : BuildResult :=
  match e.summary with
  | none => .missingField "summary"
  | some summary =>
    match e.start with
    | none => .missingField "start"
    | some start_str =>
      let end_str := e.end_.getD start_str
      let location := e.location.getD ""
      let url := pyStrip (e.url.getD "")
      let cats := catsNorm (e.categories.getD "")
      let desc := e.description.getD ""
      match parse_ymd start_str, parse_ymd end_str with
      | some s, some e0 =>
        let e_date := if dateLt e0 s then s else e0
        if in_window w s e_date then
          let dtend := fmtCompact (addOneDay e_date)
          let uid := slugify summary ++ "-" ++ toString s.y ++ "@whatson.local"
          let descParts :=
            (if desc ≠ "" then [esc desc] else []) ++
              (if url ≠ "" then ["More: " ++ url] else [])
          .ok (["BEGIN:VEVENT",
                "UID:" ++ uid,
                "DTSTAMP:" ++ dtstamp,
                "DTSTART;VALUE=DATE:" ++ fmtCompact s,
                "DTEND;VALUE=DATE:" ++ dtend,
                "SUMMARY:" ++ esc summary]
              ++ (if location ≠ "" then ["LOCATION:" ++ esc location] else [])
              ++ (if descParts ≠ [] then
                    ["DESCRIPTION:" ++ String.intercalate "\\n" descParts] else [])
              ++ (if url ≠ "" then ["URL:" ++ url] else [])
              ++ (if cats ≠ "" then ["CATEGORIES:" ++ esc cats] else [])
              ++ ["STATUS:CONFIRMED", "TRANSP:TRANSPARENT", "END:VEVENT"])
        else .outOfWindow
      | _, _ => .badDate

/-- One element of `main`'s `cleaned` list: the parsed start date, the
parsed (pre-clamp) end date, and the raw entry. -/
abbrev Entry := Date × Date × RawEvent

/-- The identity key computed in `main`'s dedup loop:
`(e.get("summary",""), s.isoformat())`. -/
def keyOf (t : Entry) : String × String := (t.2.2.summary.getD "", isoformat t.1)

/-- One iteration of `main`'s cleaning loop: parse `e["start"]` and
`e.get("end", e["start"])`; any failure (missing start, bad date) is
caught and the entry skipped with a warning. -/
def cleanEntry (e : RawEvent) : Option Entry :=
  match e.start with
  | none => none
  | some st =>
    match parse_ymd st, parse_ymd (e.end_.getD st) with
    | some s, some e0 => some (s, e0, e)
    | _, _ => none

/-- `main`'s cleaning loop: the `cleaned` list plus the warnings printed
for skipped entries, in processing order. -/
def cleanEvents : List RawEvent → List Entry × List String
  | [] => ([], [])
  | e :: es =>
    let r := cleanEvents es
    match cleanEntry e with
    | some t => (t :: r.1, r.2)
    | none => (r.1, "[warn] skipping event due to date parse" :: r.2)

/-- Comparison used by `cleaned.sort(key=lambda t: t[0])`: the parsed
start date only. -/
def startLe (a b : Entry) : Bool := dateLe a.1 b.1

/-- Stable insertion of one element: placed before the first element it
compares `<=` to, hence after every earlier element with an equal key. -/
def insertByStart (x : Entry) : List Entry → List Entry
  | [] => [x]
  | y :: ys => if startLe x y then x :: y :: ys else y :: insertByStart x ys

/-- `cleaned.sort(key=lambda t: t[0])`: Python's `list.sort` is stable,
and a stable ascending sort of a list is unique, so this insertion sort
computes exactly the list Python produces. -/
def sortByStart : List Entry → List Entry
  | [] => []
  | x :: xs => insertByStart x (sortByStart xs)

/-- `main`'s VEVENT loop over the sorted `cleaned` list with the `seen`
set: returns the emitted events (each paired with its `cleaned` entry)
and the warnings printed by `build_vevent`. -/
def buildLoop (w : Window) (dtstamp : String) :
    List Entry → List (String × String) → List (Entry × List String) × List String
  | [], _ => ([], [])
  | t :: ts, seen =>
    match build_vevent w dtstamp t.2.2 with
    | .ok ls =>
      if keyOf t ∈ seen then buildLoop w dtstamp ts seen
      else
        ((t, ls) :: (buildLoop w dtstamp ts (keyOf t :: seen)).1,
          (buildLoop w dtstamp ts (keyOf t :: seen)).2)
    | .missingField f =>
      ((buildLoop w dtstamp ts seen).1,
        ("[warn] missing required field " ++ f) :: (buildLoop w dtstamp ts seen).2)
    | .badDate =>
      ((buildLoop w dtstamp ts seen).1,
        "[warn] bad date(s); skipping" :: (buildLoop w dtstamp ts seen).2)
    | .outOfWindow => buildLoop w dtstamp ts seen

/-- The emitted events of one run, in output order, each paired with the
`cleaned` entry it came from. -/
def mainEmitted (w : Window) (dtstamp : String) (evs : List RawEvent) :
    List (Entry × List String) :=
  (buildLoop w dtstamp (sortByStart (cleanEvents evs).1) []).1

/-- `main`'s `vevents` list: the serialized units in output order. -/
def mainVevents (w : Window) (dtstamp : String) (evs : List RawEvent) : List (List String) :=
  (mainEmitted w dtstamp evs).map (fun p => p.2)

/-- All warnings printed during one run, cleaning loop first. -/
def mainWarnings (w : Window) (dtstamp : String) (evs : List RawEvent) : List String :=
  (cleanEvents evs).2 ++ (buildLoop w dtstamp (sortByStart (cleanEvents evs).1) []).2

/-- `main`'s return value: 0 (success) on every run that reaches the end
of the function; the warnings above are all non-fatal. -/
def mainExitCode (_w : Window) (_dtstamp : String) (_evs : List RawEvent) : Nat := 0

/-- Was the entry rejected by validation (missing field or unparseable
date)?  Window filtering and deduplication are not rejections. -/
def notRejected (w : Window) (dtstamp : String) (e : RawEvent) : Bool :=
  match build_vevent w dtstamp e with
  | .missingField _ => false
  | .badDate => false
  | _ => true

/-- Did the entry produce a VEVENT (valid and in-window)? -/
def buildsOk (w : Window) (dtstamp : String) (t : Entry) : Bool :=
  match build_vevent w dtstamp t.2.2 with
  | .ok _ => true
  | _ => false

/-- The VEVENT lines an entry produces (empty if it produces none). -/
def okLines (w : Window) (dtstamp : String) (e : RawEvent) : List String :=
  match build_vevent w dtstamp e with
  | .ok ls => ls
  | _ => []

/-- `okLines` lifted to `cleaned` entries. -/
def builtLines (w : Window) (dtstamp : String) (t : Entry) : List String :=
  okLines w dtstamp t.2.2

/-- Validation of one raw entry per the Normalizer/Validator contract:
`summary` present, `start` present and parseable, `end` (defaulted to
`start`) parseable.  This is `notRejected` for any window. -/
def validEntry (e : RawEvent) : Bool :=
  e.summary.isSome &&
    match cleanEntry e with
    | some _ => true
    | none => false

/-- Is the named marker present in a serialized unit (a line starting
with the marker prefix)? -/
def markerPresent (m : String) (lines : List String) : Bool :=
  lines.any (fun l => m.data.isPrefixOf l.data)

/-- The `lines` list assembled in the in-window branch of `build_vevent`,
as a function of the already-normalized field values. -/
def veLines (dts sm : String) (s eDate : Date) (loc url cats desc : String) : List String :=
  (["BEGIN:VEVENT",
    "UID:" ++ (slugify sm ++ "-" ++ toString s.y ++ "@whatson.local"),
    "DTSTAMP:" ++ dts,
    "DTSTART;VALUE=DATE:" ++ fmtCompact s,
    "DTEND;VALUE=DATE:" ++ fmtCompact (addOneDay eDate),
    "SUMMARY:" ++ esc sm]
  ++ (if loc ≠ "" then ["LOCATION:" ++ esc loc] else [])
  ++ (if ((if desc ≠ "" then [esc desc] else []) ++
          (if url ≠ "" then ["More: " ++ url] else [])) ≠ [] then
        ["DESCRIPTION:" ++ String.intercalate "\\n"
          ((if desc ≠ "" then [esc desc] else []) ++
            (if url ≠ "" then ["More: " ++ url] else []))]
      else [])
  ++ (if url ≠ "" then ["URL:" ++ url] else [])
  ++ (if cats ≠ "" then ["CATEGORIES:" ++ esc cats] else [])
  ++ ["STATUS:CONFIRMED", "TRANSP:TRANSPARENT", "END:VEVENT"])

/-- Lowercasing for the case-insensitive comparison in the spec sort
contract (`str.lower()` on the ASCII summaries this feed uses). -/
def lowerStr (s : String) : String := ⟨s.data.map Char.toLower⟩

/-- Lexicographic order on character lists by code point, as Python
compares strings. -/
def charListLe : List Char → List Char → Bool
  | [], _ => true
  | _ :: _, [] => false
  | a :: as, b :: bs => if a = b then charListLe as bs else decide (a < b)

/-- Modelled from the spec: the output comparator claimed in the sort
contract — parsed start date ascending, ties broken by case-insensitive
summary ascending.  (The source sorts by start date only; this definition
exists to compare the claim with the code.) -/
def specSortLe (a b : Date × String) : Bool :=
  dateLt a.1 b.1 || (a.1 == b.1 && charListLe (lowerStr a.2).data (lowerStr b.2).data)

/-- The warning `build_vevent` prints for an entry, if any. -/
def warnOfBuild : BuildResult → Option String
  | .missingField f => some ("[warn] missing required field " ++ f)
  | .badDate => some "[warn] bad date(s); skipping"
  | _ => none

/-- An entry that survives the cleaning loop and builds a VEVENT under
the given window: valid, in-window, hence emitted unless deduplicated. -/
def goodEntry (w : Window) (dtstamp : String) (e : RawEvent) : Bool :=
  match cleanEntry e with
  | some t => buildsOk w dtstamp t
  | none => false

/-- Example entry: valid, span [2025-01-01, 2025-01-01], before the
default window. -/
def exDupEarly : RawEvent := ⟨some "Fete A", some "2025-01-01", none, none, none, none, none⟩

/-- Example entry: same identity key as `exDupEarly` (same summary, same
start), but its span [2025-01-01, 2025-06-15] reaches into the default
window. -/
def exDupLate : RawEvent :=
  ⟨some "Fete A", some "2025-01-01", some "2025-06-15", none, none, none, none⟩

/-- Example entry with summary `"b"`, start 2025-07-01. -/
def exSortB : RawEvent := ⟨some "b", some "2025-07-01", none, none, none, none, none⟩

/-- Example entry with summary `"A"`, start 2025-07-01. -/
def exSortA : RawEvent := ⟨some "A", some "2025-07-01", none, none, none, none, none⟩

/-- Example entry whose URL contains a comma. -/
def exUrlComma : RawEvent :=
  ⟨some "Show", some "2025-07-01", none, none, some "http://x.test/a,b", none, none⟩

/-- Example entry whose location is a single space (whitespace-only). -/
def exBlankLoc : RawEvent := ⟨some "Walk", some "2025-07-01", none, some " ", none, none, none⟩

/-- Example entry: inverted dates (end before start). -/
def exInverted : RawEvent :=
  ⟨some "Swap", some "2025-07-04", some "2025-07-01", none, none, none, none⟩

/-- Example valid entry ("Fair", 2025-07-02). -/
def exGood1 : RawEvent := ⟨some "Fair", some "2025-07-02", none, none, none, none, none⟩

/-- Example valid entry ("Gig", 2025-07-03). -/
def exGood2 : RawEvent := ⟨some "Gig", some "2025-07-03", none, none, none, none, none⟩

/-- Example entry missing the required `summary` field. -/
def exNoSummary : RawEvent := ⟨none, some "2025-07-01", none, none, none, none, none⟩

/-- Example entry "Fete" on 2025-07-04. -/
def exFeteJul : RawEvent := ⟨some "Fete", some "2025-07-04", none, none, none, none, none⟩

/-- Example entry "Fete" on 2025-08-01 (same summary and year as
`exFeteJul`, different identity key). -/
def exFeteAug : RawEvent := ⟨some "Fete", some "2025-08-01", none, none, none, none, none⟩

/-- Example entry with a description containing separator characters and
no url. -/
def exDescOnly : RawEvent :=
  ⟨some "Talk", some "2025-07-01", none, none, none, none, some "Hello, world; ok"⟩

/-- Example entry with both a multi-line description and a url. -/
def exDescUrl : RawEvent :=
  ⟨some "Gig", some "2025-07-01", none, none, some " http://a.b ", none, some "Line1\nLine2"⟩

theorem dateLt_iff (a b : Date) :
    dateLt a b = true ↔
      a.y < b.y ∨ (a.y = b.y ∧ (a.m < b.m ∨ (a.m = b.m ∧ a.d < b.d))) := by
  simp [dateLt]

theorem dateLe_iff (a b : Date) :
    dateLe a b = true ↔
      ¬ (b.y < a.y ∨ (b.y = a.y ∧ (b.m < a.m ∨ (b.m = a.m ∧ b.d < a.d)))) := by
  simp [dateLe, dateLt]
  tauto

theorem dateLt_irrefl (a : Date) : dateLt a a = false := by
  cases hlt : dateLt a a
  · rfl
  · have h := (dateLt_iff a a).mp hlt
    omega

theorem dateLe_refl (a : Date) : dateLe a a = true := by
  simp [dateLe, dateLt_irrefl]

theorem dateLe_total (a b : Date) : dateLe a b = true ∨ dateLe b a = true := by
  rw [dateLe_iff, dateLe_iff]
  omega

theorem dateLe_trans {a b c : Date} (h1 : dateLe a b = true) (h2 : dateLe b c = true) :
    dateLe a c = true := by
  rw [dateLe_iff] at h1 h2 ⊢
  omega

theorem dateLe_of_not_dateLe {a b : Date} (h : ¬ dateLe a b = true) : dateLe b a = true := by
  rcases dateLe_total a b with h1 | h1
  · exact absurd h1 h
  · exact h1

theorem dateLt_of_not_dateLe {a b : Date} (h : ¬ dateLe a b = true) : dateLt b a = true := by
  cases hlt : dateLt b a
  · exact absurd (by simp [dateLe, hlt]) h
  · rfl

theorem dateLe_antisymm {a b : Date} (h1 : dateLe a b = true) (h2 : dateLe b a = true) :
    a = b := by
  rw [dateLe_iff] at h1 h2
  cases a; cases b
  simp_all
  omega

theorem daysInMonth_le (y m : Nat) : daysInMonth y m ≤ 31 := by
  unfold daysInMonth
  split
  · split <;> omega
  · split <;> omega

theorem dateLt_addOneDay (dt : Date) : dateLt dt (addOneDay dt) = true := by
  rw [dateLt_iff]
  unfold addOneDay
  split
  · dsimp only
    omega
  · split
    · dsimp only
      omega
    · dsimp only
      omega

theorem natOfDigits_foldl_lt (cs : List Char) :
    ∀ a : Nat, (∀ c ∈ cs, c.isDigit = true) →
      cs.foldl (fun a c => a * 10 + (c.toNat - 48)) a < (a + 1) * 10 ^ cs.length := by
  induction cs with
  | nil => intro a _; simp
  | cons c cs ih =>
    intro a h
    have hc : c.isDigit = true := h c (List.mem_cons_self c cs)
    have hd : c.toNat - 48 ≤ 9 := by
      simp [Char.isDigit] at hc
      have h2 : c.val.toNat ≤ 57 := by
        have := hc.2
        rw [UInt32.le_def, BitVec.le_def] at this
        simpa using this
      unfold Char.toNat
      omega
    have step := ih (a * 10 + (c.toNat - 48)) (fun x hx => h x (List.mem_cons_of_mem c hx))
    have hle : (a * 10 + (c.toNat - 48) + 1) * 10 ^ cs.length ≤ (a + 1) * 10 ^ (cs.length + 1) := by
      have h1 : a * 10 + (c.toNat - 48) + 1 ≤ (a + 1) * 10 := by omega
      calc (a * 10 + (c.toNat - 48) + 1) * 10 ^ cs.length
          ≤ (a + 1) * 10 * 10 ^ cs.length := Nat.mul_le_mul_right _ h1
        _ = (a + 1) * 10 ^ (cs.length + 1) := by ring
    simpa [List.foldl_cons] using Nat.lt_of_lt_of_le step hle

theorem natOfDigits_lt (cs : List Char) (h : ∀ c ∈ cs, c.isDigit = true) :
    natOfDigits cs < 10 ^ cs.length := by
  simpa [natOfDigits] using natOfDigits_foldl_lt cs 0 h

theorem parse_ymd_bounds {s : String} {dt : Date} (h : parse_ymd s = some dt) :
    1 ≤ dt.y ∧ dt.y < 10000 ∧ 1 ≤ dt.m ∧ dt.m ≤ 12 ∧ 1 ≤ dt.d ∧ dt.d ≤ 31 := by
  unfold parse_ymd parseYmdChars at h
  set cs := s.data with hcs
  simp only at h
  split at h
  case isFalse => exact absurd h (by simp)
  case isTrue hy =>
    split at h
    case h_2 => exact absurd h (by simp)
    case h_1 rest1 heq1 =>
      split at h
      case isFalse => exact absurd h (by simp)
      case isTrue hm =>
        split at h
        case h_2 => exact absurd h (by simp)
        case h_1 rest2 heq2 =>
          split at h
          case isFalse => exact absurd h (by simp)
          case isTrue hd =>
            split at h
            case isFalse => exact absurd h (by simp)
            case isTrue hrange =>
              have hysd : ∀ c ∈ cs.takeWhile Char.isDigit, c.isDigit = true := by
                have := List.all_takeWhile (p := Char.isDigit) (l := cs)
                rw [List.all_eq_true] at this
                exact this
              have hybound := natOfDigits_lt _ hysd
              rw [hy] at hybound
              have hdm := daysInMonth_le (natOfDigits (cs.takeWhile Char.isDigit))
                (natOfDigits (rest1.takeWhile Char.isDigit))
              injection h with h
              subst h
              dsimp only
              refine ⟨hrange.1, ?_, hrange.2.1, hrange.2.2.1, hrange.2.2.2.1, ?_⟩
              · omega
              · omega

theorem digitChar_inj : ∀ a < 10, ∀ b < 10, digitChar a = digitChar b → a = b := by
  decide

theorem pad4_inj {a b : Nat} (ha : a < 10000) (hb : b < 10000)
    (h : pad4 a = pad4 b) : a = b := by
  have h' := congrArg String.data h
  simp [pad4] at h'
  obtain ⟨h1, h2, h3, h4⟩ := h'
  have e1 := digitChar_inj _ (Nat.mod_lt _ (by omega)) _ (Nat.mod_lt _ (by omega)) h1
  have e2 := digitChar_inj _ (Nat.mod_lt _ (by omega)) _ (Nat.mod_lt _ (by omega)) h2
  have e3 := digitChar_inj _ (Nat.mod_lt _ (by omega)) _ (Nat.mod_lt _ (by omega)) h3
  have e4 := digitChar_inj _ (Nat.mod_lt _ (by omega)) _ (Nat.mod_lt _ (by omega)) h4
  omega

theorem pad2_inj {a b : Nat} (ha : a < 100) (hb : b < 100)
    (h : pad2 a = pad2 b) : a = b := by
  have h' := congrArg String.data h
  simp [pad2] at h'
  obtain ⟨h1, h2⟩ := h'
  have e1 := digitChar_inj _ (Nat.mod_lt _ (by omega)) _ (Nat.mod_lt _ (by omega)) h1
  have e2 := digitChar_inj _ (Nat.mod_lt _ (by omega)) _ (Nat.mod_lt _ (by omega)) h2
  omega

theorem isoformat_inj {a b : Date}
    (ha : a.y < 10000 ∧ a.m < 100 ∧ a.d < 100)
    (hb : b.y < 10000 ∧ b.m < 100 ∧ b.d < 100)
    (h : isoformat a = isoformat b) : a = b := by
  have h' := congrArg String.data h
  simp [isoformat, pad4, pad2, String.data_append] at h'
  obtain ⟨h1, h2, h3, h4, h5, h6, h7, h8⟩ := h'
  have e1 := digitChar_inj _ (Nat.mod_lt _ (by omega)) _ (Nat.mod_lt _ (by omega)) h1
  have e2 := digitChar_inj _ (Nat.mod_lt _ (by omega)) _ (Nat.mod_lt _ (by omega)) h2
  have e3 := digitChar_inj _ (Nat.mod_lt _ (by omega)) _ (Nat.mod_lt _ (by omega)) h3
  have e4 := digitChar_inj _ (Nat.mod_lt _ (by omega)) _ (Nat.mod_lt _ (by omega)) h4
  have e5 := digitChar_inj _ (Nat.mod_lt _ (by omega)) _ (Nat.mod_lt _ (by omega)) h5
  have e6 := digitChar_inj _ (Nat.mod_lt _ (by omega)) _ (Nat.mod_lt _ (by omega)) h6
  have e7 := digitChar_inj _ (Nat.mod_lt _ (by omega)) _ (Nat.mod_lt _ (by omega)) h7
  have e8 := digitChar_inj _ (Nat.mod_lt _ (by omega)) _ (Nat.mod_lt _ (by omega)) h8
  have : a.y = b.y ∧ a.m = b.m ∧ a.d = b.d := by
    constructor
    · omega
    · constructor <;> omega
  cases a; cases b
  simp_all

theorem escChar_ne_nil (c : Char) : escChar c ≠ [] := by
  unfold escChar
  split
  · simp
  · split
    · simp
    · split
      · simp
      · split <;> simp

theorem escList_eq_nil_iff (cs : List Char) : escList cs = [] ↔ cs = [] := by
  cases cs with
  | nil => simp [escList]
  | cons c cs =>
    simp only [escList]
    constructor
    · intro h
      exact absurd (List.append_eq_nil.mp h).1 (escChar_ne_nil c)
    · intro h
      simp at h

theorem unescList_escList (cs : List Char) : unescList (escList cs) = cs := by
  induction cs with
  | nil => rfl
  | cons c cs ih =>
    by_cases h1 : c = '\\'
    · subst h1; simp [escList, escChar, unescList, ih]
    by_cases h2 : c = ','
    · subst h2; simp [escList, escChar, unescList, ih]
    by_cases h3 : c = ';'
    · subst h3; simp [escList, escChar, unescList, ih]
    by_cases h4 : c = '\n'
    · subst h4; simp [escList, escChar, unescList, ih]
    · have he : escList (c :: cs) = c :: escList cs := by
        simp [escList, escChar, h1, h2, h3, h4]
      rw [he]
      cases hcs : escList cs with
      | nil =>
        have : cs = [] := (escList_eq_nil_iff cs).mp hcs
        subst this
        simp [unescList]
      | cons d rest =>
        rw [← hcs]
        have : unescList (c :: escList cs) = c :: unescList (escList cs) := by
          rw [hcs]
          simp [unescList, h1]
        rw [this, ih]

theorem noRawSep_escList (cs : List Char) : noRawSep (escList cs) = true := by
  induction cs with
  | nil => rfl
  | cons c cs ih =>
    by_cases h1 : c = '\\'
    · subst h1; simp [escList, escChar, noRawSep, ih]
    by_cases h2 : c = ','
    · subst h2; simp [escList, escChar, noRawSep, ih]
    by_cases h3 : c = ';'
    · subst h3; simp [escList, escChar, noRawSep, ih]
    by_cases h4 : c = '\n'
    · subst h4; simp [escList, escChar, noRawSep, ih]
    · have he : escList (c :: cs) = c :: escList cs := by
        simp [escList, escChar, h1, h2, h3, h4]
      rw [he]
      cases hcs : escList cs with
      | nil =>
        simp [noRawSep, h2, h3]
      | cons d rest =>
        rw [← hcs]
        have : noRawSep (c :: escList cs) = noRawSep (escList cs) := by
          rw [hcs]
          simp [noRawSep, h1, h2, h3]
        rw [this, ih]

/-- Claim C7: applying the documented un-escaping rule (the inverse of:
escape backslash, comma, semicolon, and turn a newline into the
two-character sequence backslash-n) to the output of the escaping
function recovers the original string exactly, for every string —
including strings containing backslashes, commas, semicolons and
newlines. -/
theorem claim_C7_escape_roundtrip (s : String) : unesc (esc s) = s := by
  cases s with
  | mk data => simp [esc, unesc, unescList_escList]

/-- Claim C2: for a non-open window (with a well-ordered boundary pair),
the filter is boundary-inclusive: an event with `start = end = winEnd`
passes; an event ending exactly at `winStart` passes; an event with
`start = end = winEnd + 1 day` fails; an event entirely before
`winStart` or entirely after `winEnd` fails; and when the window mode is
open, every event passes. -/
theorem claim_C2_window_boundary (w : Window) (s e : Date)
    (hopen : w.isOpen = false) (hwin : dateLe w.winStart w.winEnd = true) :
    in_window w w.winEnd w.winEnd = true
    ∧ (dateLe s w.winStart = true → in_window w s w.winStart = true)
    ∧ in_window w (addOneDay w.winEnd) (addOneDay w.winEnd) = false
    ∧ (dateLt e w.winStart = true → in_window w s e = false)
    ∧ (dateLt w.winEnd s = true → in_window w s e = false)
    ∧ (∀ w' : Window, w'.isOpen = true → ∀ a b : Date, in_window w' a b = true) := by
  have hwe : dateLt w.winEnd w.winStart = false := by
    simp [dateLe] at hwin
    exact hwin
  refine ⟨?_, ?_, ?_, ?_, ?_, ?_⟩
  · simp [in_window, hopen, hwe, dateLt_irrefl]
  · intro hs
    have hse : dateLe s w.winEnd = true := dateLe_trans hs hwin
    have : dateLt w.winEnd s = false := by
      simp [dateLe] at hse
      exact hse
    simp [in_window, hopen, dateLt_irrefl, this]
  · simp [in_window, hopen, dateLt_addOneDay]
  · intro he
    simp [in_window, hopen, he]
  · intro hs
    simp [in_window, hopen, hs]
  · intro w' hw' a b
    simp [in_window, hw']

/-- Witness for C2 at the built-in default window `[2025-06-01,
2027-12-31]` and concrete dates. -/
theorem claim_C2_window_boundary_witness :
    in_window defaultWindow ⟨2027, 12, 31⟩ ⟨2027, 12, 31⟩ = true
    ∧ in_window defaultWindow ⟨2025, 5, 1⟩ ⟨2025, 6, 1⟩ = true
    ∧ in_window defaultWindow ⟨2028, 1, 1⟩ ⟨2028, 1, 1⟩ = false
    ∧ in_window defaultWindow ⟨2020, 1, 1⟩ ⟨2020, 2, 1⟩ = false
    ∧ in_window defaultWindow ⟨2028, 3, 1⟩ ⟨2028, 4, 1⟩ = false
    ∧ in_window openWindow ⟨1900, 1, 1⟩ ⟨1900, 1, 2⟩ = true := by
  have h1 := claim_C2_window_boundary defaultWindow ⟨2025, 5, 1⟩ ⟨2020, 2, 1⟩ rfl (by decide)
  have h2 := claim_C2_window_boundary defaultWindow ⟨2028, 3, 1⟩ ⟨2028, 4, 1⟩ rfl (by decide)
  have h3 := claim_C2_window_boundary defaultWindow ⟨2020, 1, 1⟩ ⟨2020, 2, 1⟩ rfl (by decide)
  refine ⟨h1.1, h1.2.1 (by decide), h1.2.2.1, h3.2.2.2.1 (by decide),
    h2.2.2.2.2.1 (by decide), h1.2.2.2.2.2 openWindow rfl ⟨1900, 1, 1⟩ ⟨1900, 1, 2⟩⟩

/-- Counterexample to claim C1 as stated: `exDupEarly` and `exDupLate`
are both valid entries (summary present, dates parse) and share the
identity key `("Fete A", "2025-01-01")`, yet under the default window
the batch `[exDupEarly, exDupLate]` emits exactly one record — the
record of the *second* entry (its `DTEND` comes from `2025-06-15`), not
the record of the entry appearing first in load order (the first entry
is filtered out by the window before deduplication can see it). -/
theorem claim_C1_counterexample :
    validEntry exDupEarly = true
    ∧ validEntry exDupLate = true
    ∧ (cleanEntry exDupEarly).map keyOf = (cleanEntry exDupLate).map keyOf
    ∧ mainVevents defaultWindow "TS" [exDupEarly, exDupLate] =
        [okLines defaultWindow "TS" exDupLate]
    ∧ okLines defaultWindow "TS" exDupLate ≠ okLines openWindow "TS" exDupEarly := by
  exact ⟨rfl, rfl, rfl, rfl, by decide⟩

/-- Counterexample to claim C3 as stated: with two distinct-keyed events
on the same start date loaded as `["b", "A"]`, the emitted sequence is
`["b", "A"]`, which is not ordered by the claimed comparator (parsed
start ascending, ties broken by case-insensitive summary ascending),
since case-insensitively `"a" < "b"`. -/
theorem claim_C3_counterexample :
    (mainEmitted defaultWindow "TS" [exSortB, exSortA]).map
        (fun p => (p.1.1, p.1.2.2.summary.getD "")) =
      [(⟨2025, 7, 1⟩, "b"), (⟨2025, 7, 1⟩, "A")]
    ∧ specSortLe (⟨2025, 7, 1⟩, "b") (⟨2025, 7, 1⟩, "A") = false := by
  exact ⟨by decide, by decide⟩

/-- Counterexample to claim C4 as stated: an event whose `url` contains
a comma is serialized with the url embedded verbatim — the emitted unit
contains the line `URL:http://x.test/a,b`, whose comma is unescaped
(and `esc` would have changed the text, so the url was not escaped). -/
theorem claim_C4_counterexample :
    mainVevents defaultWindow "TS" [exUrlComma] = [okLines defaultWindow "TS" exUrlComma]
    ∧ ("URL:http://x.test/a,b") ∈ okLines defaultWindow "TS" exUrlComma
    ∧ ("DESCRIPTION:More: http://x.test/a,b") ∈ okLines defaultWindow "TS" exUrlComma
    ∧ noRawSep ("URL:http://x.test/a,b").data = false
    ∧ esc "http://x.test/a,b" ≠ "http://x.test/a,b" := by
  exact ⟨rfl, by decide, by decide, by decide, by decide⟩

/-- Counterexample to claim C5 as stated: an event whose `location` is a
single space — empty after trimming — still emits a `LOCATION` marker
(the source tests `if location:` on the untrimmed value). -/
theorem claim_C5_counterexample :
    pyStrip " " = ""
    ∧ exBlankLoc.location = some " "
    ∧ mainVevents defaultWindow "TS" [exBlankLoc] = [okLines defaultWindow "TS" exBlankLoc]
    ∧ markerPresent "LOCATION:" (okLines defaultWindow "TS" exBlankLoc) = true
    ∧ ("LOCATION: ") ∈ okLines defaultWindow "TS" exBlankLoc := by
  exact ⟨by decide, rfl, rfl, by decide, by decide⟩

theorem build_vevent_spec (w : Window) (dts : String) (e : RawEvent) (sm ss : String)
    (s e0 : Date) (hsm : e.summary = some sm) (hss : e.start = some ss)
    (hps : parse_ymd ss = some s) (hpe : parse_ymd (e.end_.getD ss) = some e0) :
    build_vevent w dts e =
      if in_window w s (if dateLt e0 s then s else e0) then
        BuildResult.ok
          (veLines dts sm s (if dateLt e0 s then s else e0) (e.location.getD "")
            (pyStrip (e.url.getD "")) (catsNorm (e.categories.getD ""))
            (e.description.getD ""))
      else .outOfWindow := by
  simp only [build_vevent, hsm, hss, hps, hpe]
  rfl

theorem uid_line_of_ok {w : Window} {dts : String} {e : RawEvent} {L : List String}
    {sm ss : String} {s : Date}
    (hsm : e.summary = some sm) (hss : e.start = some ss) (hps : parse_ymd ss = some s)
    (hok : build_vevent w dts e = .ok L) :
    L.get? 1 = some ("UID:" ++ (slugify sm ++ "-" ++ toString s.y ++ "@whatson.local")) := by
  cases hpe : parse_ymd (e.end_.getD ss) with
  | none =>
    simp only [build_vevent, hsm, hss, hps, hpe] at hok
    exact absurd hok (by simp)
  | some e0 =>
    rw [build_vevent_spec w dts e sm ss s e0 hsm hss hps hpe] at hok
    split at hok <;> split at hok
    all_goals
      first
        | (injection hok with hok; subst hok; rfl)
        | exact absurd hok (by simp)

/-- Claim C6: for every emitted event, the serialized end marker is the
canonical (clamped) end date plus one day in compact `YYYYMMDD` form,
and the serialized start marker is the canonical start date in the same
compact form. -/
theorem claim_C6_exclusive_end_marker (w : Window) (dts : String) (e : RawEvent)
    (L : List String) (sm ss : String) (s e0 : Date)
    (hsm : e.summary = some sm) (hss : e.start = some ss)
    (hps : parse_ymd ss = some s) (hpe : parse_ymd (e.end_.getD ss) = some e0)
    (hok : build_vevent w dts e = .ok L) :
    L.get? 3 = some ("DTSTART;VALUE=DATE:" ++ fmtCompact s)
    ∧ L.get? 4 =
        some ("DTEND;VALUE=DATE:" ++ fmtCompact (addOneDay (if dateLt e0 s then s else e0))) := by
  rw [build_vevent_spec w dts e sm ss s e0 hsm hss hps hpe] at hok
  split at hok
  case isTrue h1 =>
    split at hok
    · injection hok with hok
      subst hok
      rw [if_pos h1]
      exact ⟨rfl, rfl⟩
    · exact absurd hok (by simp)
  case isFalse h1 =>
    split at hok
    · injection hok with hok
      subst hok
      rw [if_neg h1]
      exact ⟨rfl, rfl⟩
    · exact absurd hok (by simp)

/-- Witness for C6: the one-day event `exFeteJul` on 2025-07-04 is
serialized with `DTSTART` 20250704 and the exclusive `DTEND` 20250705. -/
theorem claim_C6_exclusive_end_marker_witness :
    (okLines defaultWindow "TS" exFeteJul).get? 3 = some "DTSTART;VALUE=DATE:20250704"
    ∧ (okLines defaultWindow "TS" exFeteJul).get? 4 = some "DTEND;VALUE=DATE:20250705" := by
  have h := claim_C6_exclusive_end_marker defaultWindow "TS" exFeteJul
    (okLines defaultWindow "TS" exFeteJul) "Fete" "2025-07-04" ⟨2025, 7, 4⟩ ⟨2025, 7, 4⟩
    rfl rfl rfl rfl rfl
  exact ⟨h.1, h.2⟩

/-- Claim C8: a validated entry with an inverted end date is not
rejected: the end is clamped up to the start (so the canonical end is
never before the start), the entry reaches window filtering, and — when
in-window — serialization produces its (non-empty) unit. -/
theorem claim_C8_inverted_end_clamped (w : Window) (dts : String) (e : RawEvent)
    (sm ss : String) (s e0 : Date)
    (hsm : e.summary = some sm) (hss : e.start = some ss)
    (hps : parse_ymd ss = some s) (hpe : parse_ymd (e.end_.getD ss) = some e0) :
    dateLe s (if dateLt e0 s then s else e0) = true
    ∧ notRejected w dts e = true
    ∧ (in_window w s (if dateLt e0 s then s else e0) = true →
        build_vevent w dts e = .ok (okLines w dts e) ∧ okLines w dts e ≠ [])
    ∧ (in_window w s (if dateLt e0 s then s else e0) = false →
        build_vevent w dts e = .outOfWindow) := by
  have hb := build_vevent_spec w dts e sm ss s e0 hsm hss hps hpe
  refine ⟨?_, ?_, ?_, ?_⟩
  · cases h1 : dateLt e0 s
    · simp [h1, dateLe, Bool.not_eq_true]
    · simp [h1, dateLe_refl]
  · unfold notRejected
    rw [hb]
    by_cases hin : in_window w s (if dateLt e0 s then s else e0) = true
    · rw [if_pos hin]
    · rw [if_neg hin]
  · intro hin
    rw [hb, if_pos hin]
    have hokl : okLines w dts e =
        veLines dts sm s (if dateLt e0 s then s else e0) (e.location.getD "")
          (pyStrip (e.url.getD "")) (catsNorm (e.categories.getD ""))
          (e.description.getD "") := by
      rw [okLines, hb, if_pos hin]
    rw [hokl]
    refine ⟨rfl, ?_⟩
    simp [veLines]
  · intro hno
    rw [hb, if_neg (by simp [hno])]

/-- Witness for C8: `exInverted` has end 2025-07-01 before start
2025-07-04; it is not rejected, its end is clamped to the start, and it
is serialized (the default window contains 2025-07-04). -/
theorem claim_C8_inverted_end_clamped_witness :
    dateLe ⟨2025, 7, 4⟩ ⟨2025, 7, 4⟩ = true
    ∧ notRejected defaultWindow "TS" exInverted = true
    ∧ build_vevent defaultWindow "TS" exInverted = .ok (okLines defaultWindow "TS" exInverted)
    ∧ okLines defaultWindow "TS" exInverted ≠ [] := by
  have h := claim_C8_inverted_end_clamped defaultWindow "TS" exInverted
    "Swap" "2025-07-04" ⟨2025, 7, 4⟩ ⟨2025, 7, 1⟩ rfl rfl rfl rfl
  have h3 := h.2.2.1 (by decide)
  exact ⟨h.1, h.2.1, h3.1, h3.2⟩

/-- Claim C10: the unique identifier of an emitted event is
`slug(summary) + "-" + year(start) + "@whatson.local"`, so it depends
only on the summary text and the year of the start date — two emitted
events with the same summary and start dates in the same year carry
identical identifiers. -/
theorem claim_C10_uid_summary_year (w : Window) (dts : String) (e1 e2 : RawEvent)
    (L1 L2 : List String) (sm ss1 ss2 : String) (s1 s2 : Date)
    (hsm1 : e1.summary = some sm) (hsm2 : e2.summary = some sm)
    (hss1 : e1.start = some ss1) (hss2 : e2.start = some ss2)
    (hp1 : parse_ymd ss1 = some s1) (hp2 : parse_ymd ss2 = some s2)
    (hyear : s1.y = s2.y)
    (hok1 : build_vevent w dts e1 = .ok L1) (hok2 : build_vevent w dts e2 = .ok L2) :
    L1.get? 1 = some ("UID:" ++ (slugify sm ++ "-" ++ toString s1.y ++ "@whatson.local"))
    ∧ L1.get? 1 = L2.get? 1 := by
  have h1 := uid_line_of_ok hsm1 hss1 hp1 hok1
  have h2 := uid_line_of_ok hsm2 hss2 hp2 hok2
  refine ⟨h1, ?_⟩
  rw [h1, h2, hyear]

/-- Witness for C10: `exFeteJul` (2025-07-04) and `exFeteAug`
(2025-08-01) have distinct identity keys, are both emitted, and carry
the same UID `fete-2025@whatson.local`. -/
theorem claim_C10_uid_summary_year_witness :
    (okLines defaultWindow "TS" exFeteJul).get? 1 = some "UID:fete-2025@whatson.local"
    ∧ (okLines defaultWindow "TS" exFeteJul).get? 1 = (okLines defaultWindow "TS" exFeteAug).get? 1
    ∧ (mainVevents defaultWindow "TS" [exFeteJul, exFeteAug]).length = 2
    ∧ (cleanEntry exFeteJul).map keyOf ≠ (cleanEntry exFeteAug).map keyOf := by
  have h := claim_C10_uid_summary_year defaultWindow "TS" exFeteJul exFeteAug
    (okLines defaultWindow "TS" exFeteJul) (okLines defaultWindow "TS" exFeteAug)
    "Fete" "2025-07-04" "2025-08-01" ⟨2025, 7, 4⟩ ⟨2025, 8, 1⟩
    rfl rfl rfl rfl rfl rfl rfl rfl rfl
  exact ⟨h.1, h.2, by decide, by decide⟩

theorem ok_lines_eq {w : Window} {dts : String} {e : RawEvent} {L : List String}
    {sm ss : String} {s e0 : Date}
    (hsm : e.summary = some sm) (hss : e.start = some ss)
    (hps : parse_ymd ss = some s) (hpe : parse_ymd (e.end_.getD ss) = some e0)
    (hok : build_vevent w dts e = .ok L) :
    L = veLines dts sm s (if dateLt e0 s then s else e0) (e.location.getD "")
      (pyStrip (e.url.getD "")) (catsNorm (e.categories.getD ""))
      (e.description.getD "") := by
  rw [build_vevent_spec w dts e sm ss s e0 hsm hss hps hpe] at hok
  split at hok
  case isTrue h1 =>
    rw [if_pos h1]
    split at hok
    · injection hok with hok
      exact hok.symm
    · exact absurd hok (by simp)
  case isFalse h1 =>
    rw [if_neg h1]
    split at hok
    · injection hok with hok
      exact hok.symm
    · exact absurd hok (by simp)

theorem esc_ne_empty (t : String) (h : t ≠ "") : esc t ≠ "" := by
  intro hc
  apply h
  cases t with
  | mk data =>
    have : escList data = [] := congrArg String.data hc
    have := (escList_eq_nil_iff data).mp this
    simp [this]

/-- Claim C4, amended: the text values summary, location, description and
categories are embedded escaped (`esc`, whose output never contains an
unescaped comma or semicolon); the url value is embedded verbatim, both
in the `URL` marker and in the description's `More:` line.  The three
description conjuncts cover every case in which the marker is emitted:
url only, description only (embedded as `esc` of the text), and both
(the escaped description joined to the verbatim `More:` line). -/
theorem claim_C4_escaping_except_url (w : Window) (dts : String) (e : RawEvent)
    (L : List String) (sm ss : String) (s e0 : Date)
    (hsm : e.summary = some sm) (hss : e.start = some ss)
    (hps : parse_ymd ss = some s) (hpe : parse_ymd (e.end_.getD ss) = some e0)
    (hok : build_vevent w dts e = .ok L) :
    ("SUMMARY:" ++ esc sm) ∈ L
    ∧ (e.location.getD "" ≠ "" → ("LOCATION:" ++ esc (e.location.getD "")) ∈ L)
    ∧ (catsNorm (e.categories.getD "") ≠ "" →
        ("CATEGORIES:" ++ esc (catsNorm (e.categories.getD ""))) ∈ L)
    ∧ (pyStrip (e.url.getD "") ≠ "" → ("URL:" ++ pyStrip (e.url.getD "")) ∈ L)
    ∧ (e.description.getD "" = "" → pyStrip (e.url.getD "") ≠ "" →
        ("DESCRIPTION:" ++ ("More: " ++ pyStrip (e.url.getD ""))) ∈ L)
    ∧ (e.description.getD "" ≠ "" → pyStrip (e.url.getD "") = "" →
        ("DESCRIPTION:" ++ esc (e.description.getD "")) ∈ L)
    ∧ (e.description.getD "" ≠ "" → pyStrip (e.url.getD "") ≠ "" →
        ("DESCRIPTION:" ++
          (esc (e.description.getD "") ++ "\\n" ++ ("More: " ++ pyStrip (e.url.getD "")))) ∈ L)
    ∧ (∀ t : String, noRawSep (esc t).data = true) := by
  have hL := ok_lines_eq hsm hss hps hpe hok
  subst hL
  have hone : ∀ x : String, String.intercalate "\\n" [x] = x := fun x => rfl
  have htwo : ∀ x y : String, String.intercalate "\\n" [x, y] = x ++ "\\n" ++ y :=
    fun x y => rfl
  refine ⟨?_, ?_, ?_, ?_, ?_, ?_, ?_, ?_⟩
  · simp [veLines]
  · intro h
    simp [veLines, h]
  · intro h
    simp [veLines, h]
  · intro h
    simp [veLines, h]
  · intro hd hu
    simp [veLines, hd, hu, hone]
  · intro hd hu
    simp [veLines, hd, hu, hone]
  · intro hd hu
    simp [veLines, hd, hu, htwo]
  · intro t
    exact noRawSep_escList t.data

set_option maxHeartbeats 1600000 in
/-- Claim C5, amended: `url` and `categories` markers are emitted exactly
when non-empty after their normalization (trimming; for categories also
comma-stripping); `location` and `description` markers are emitted
exactly when the raw value is non-empty — no trimming, so a
whitespace-only location or description still emits its marker (the
description marker also appears whenever a url is present); and no
marker is emitted with an empty value (`esc` of non-empty is
non-empty, and the url/categories values are the non-empty normalized
texts themselves). -/
theorem claim_C5_optional_markers (w : Window) (dts : String) (e : RawEvent)
    (L : List String) (sm ss : String) (s e0 : Date)
    (hsm : e.summary = some sm) (hss : e.start = some ss)
    (hps : parse_ymd ss = some s) (hpe : parse_ymd (e.end_.getD ss) = some e0)
    (hok : build_vevent w dts e = .ok L) :
    (markerPresent "LOCATION:" L = true ↔ e.location.getD "" ≠ "")
    ∧ (markerPresent "URL:" L = true ↔ pyStrip (e.url.getD "") ≠ "")
    ∧ (markerPresent "CATEGORIES:" L = true ↔ catsNorm (e.categories.getD "") ≠ "")
    ∧ (markerPresent "DESCRIPTION:" L = true ↔
        (e.description.getD "" ≠ "" ∨ pyStrip (e.url.getD "") ≠ ""))
    ∧ (∀ t : String, t ≠ "" → esc t ≠ "") := by
  have hL := ok_lines_eq hsm hss hps hpe hok
  subst hL
  have pLoc1 : ∀ x : String, "LOCATION:".data.isPrefixOf ("UID:" ++ x).data = false := fun x => rfl
  have pLoc2 : ∀ x : String, "LOCATION:".data.isPrefixOf ("DTSTAMP:" ++ x).data = false := fun x => rfl
  have pLoc3 : ∀ x : String, "LOCATION:".data.isPrefixOf ("DTSTART;VALUE=DATE:" ++ x).data = false := fun x => rfl
  have pLoc4 : ∀ x : String, "LOCATION:".data.isPrefixOf ("DTEND;VALUE=DATE:" ++ x).data = false := fun x => rfl
  have pLoc5 : ∀ x : String, "LOCATION:".data.isPrefixOf ("SUMMARY:" ++ x).data = false := fun x => rfl
  have pLoc6 : ∀ x : String, "LOCATION:".data.isPrefixOf ("LOCATION:" ++ x).data = true := by
    intro x
    simp [List.isPrefixOf]
  have pLoc7 : ∀ x : String, "LOCATION:".data.isPrefixOf ("DESCRIPTION:" ++ x).data = false := fun x => rfl
  have pLoc8 : ∀ x : String, "LOCATION:".data.isPrefixOf ("URL:" ++ x).data = false := fun x => rfl
  have pLoc9 : ∀ x : String, "LOCATION:".data.isPrefixOf ("CATEGORIES:" ++ x).data = false := fun x => rfl
  have pLoc10 : "LOCATION:".data.isPrefixOf ("BEGIN:VEVENT" : String).data = false := by decide
  have pLoc11 : "LOCATION:".data.isPrefixOf ("STATUS:CONFIRMED" : String).data = false := by decide
  have pLoc12 : "LOCATION:".data.isPrefixOf ("TRANSP:TRANSPARENT" : String).data = false := by decide
  have pLoc13 : "LOCATION:".data.isPrefixOf ("END:VEVENT" : String).data = false := by decide
  have pUrl1 : ∀ x : String, "URL:".data.isPrefixOf ("UID:" ++ x).data = false := fun x => rfl
  have pUrl2 : ∀ x : String, "URL:".data.isPrefixOf ("DTSTAMP:" ++ x).data = false := fun x => rfl
  have pUrl3 : ∀ x : String, "URL:".data.isPrefixOf ("DTSTART;VALUE=DATE:" ++ x).data = false := fun x => rfl
  have pUrl4 : ∀ x : String, "URL:".data.isPrefixOf ("DTEND;VALUE=DATE:" ++ x).data = false := fun x => rfl
  have pUrl5 : ∀ x : String, "URL:".data.isPrefixOf ("SUMMARY:" ++ x).data = false := fun x => rfl
  have pUrl6 : ∀ x : String, "URL:".data.isPrefixOf ("LOCATION:" ++ x).data = false := fun x => rfl
  have pUrl7 : ∀ x : String, "URL:".data.isPrefixOf ("DESCRIPTION:" ++ x).data = false := fun x => rfl
  have pUrl8 : ∀ x : String, "URL:".data.isPrefixOf ("URL:" ++ x).data = true := by
    intro x
    simp [List.isPrefixOf]
  have pUrl9 : ∀ x : String, "URL:".data.isPrefixOf ("CATEGORIES:" ++ x).data = false := fun x => rfl
  have pUrl10 : "URL:".data.isPrefixOf ("BEGIN:VEVENT" : String).data = false := by decide
  have pUrl11 : "URL:".data.isPrefixOf ("STATUS:CONFIRMED" : String).data = false := by decide
  have pUrl12 : "URL:".data.isPrefixOf ("TRANSP:TRANSPARENT" : String).data = false := by decide
  have pUrl13 : "URL:".data.isPrefixOf ("END:VEVENT" : String).data = false := by decide
  have pCat1 : ∀ x : String, "CATEGORIES:".data.isPrefixOf ("UID:" ++ x).data = false := fun x => rfl
  have pCat2 : ∀ x : String, "CATEGORIES:".data.isPrefixOf ("DTSTAMP:" ++ x).data = false := fun x => rfl
  have pCat3 : ∀ x : String, "CATEGORIES:".data.isPrefixOf ("DTSTART;VALUE=DATE:" ++ x).data = false := fun x => rfl
  have pCat4 : ∀ x : String, "CATEGORIES:".data.isPrefixOf ("DTEND;VALUE=DATE:" ++ x).data = false := fun x => rfl
  have pCat5 : ∀ x : String, "CATEGORIES:".data.isPrefixOf ("SUMMARY:" ++ x).data = false := fun x => rfl
  have pCat6 : ∀ x : String, "CATEGORIES:".data.isPrefixOf ("LOCATION:" ++ x).data = false := fun x => rfl
  have pCat7 : ∀ x : String, "CATEGORIES:".data.isPrefixOf ("DESCRIPTION:" ++ x).data = false := fun x => rfl
  have pCat8 : ∀ x : String, "CATEGORIES:".data.isPrefixOf ("URL:" ++ x).data = false := fun x => rfl
  have pCat9 : ∀ x : String, "CATEGORIES:".data.isPrefixOf ("CATEGORIES:" ++ x).data = true := by
    intro x
    simp [List.isPrefixOf]
  have pCat10 : "CATEGORIES:".data.isPrefixOf ("BEGIN:VEVENT" : String).data = false := by decide
  have pCat11 : "CATEGORIES:".data.isPrefixOf ("STATUS:CONFIRMED" : String).data = false := by decide
  have pCat12 : "CATEGORIES:".data.isPrefixOf ("TRANSP:TRANSPARENT" : String).data = false := by decide
  have pCat13 : "CATEGORIES:".data.isPrefixOf ("END:VEVENT" : String).data = false := by decide
  have pDes1 : ∀ x : String, "DESCRIPTION:".data.isPrefixOf ("UID:" ++ x).data = false := fun x => rfl
  have pDes2 : ∀ x : String, "DESCRIPTION:".data.isPrefixOf ("DTSTAMP:" ++ x).data = false := fun x => rfl
  have pDes3 : ∀ x : String, "DESCRIPTION:".data.isPrefixOf ("DTSTART;VALUE=DATE:" ++ x).data = false := fun x => rfl
  have pDes4 : ∀ x : String, "DESCRIPTION:".data.isPrefixOf ("DTEND;VALUE=DATE:" ++ x).data = false := fun x => rfl
  have pDes5 : ∀ x : String, "DESCRIPTION:".data.isPrefixOf ("SUMMARY:" ++ x).data = false := fun x => rfl
  have pDes6 : ∀ x : String, "DESCRIPTION:".data.isPrefixOf ("LOCATION:" ++ x).data = false := fun x => rfl
  have pDes7 : ∀ x : String, "DESCRIPTION:".data.isPrefixOf ("DESCRIPTION:" ++ x).data = true := by
    intro x
    simp [List.isPrefixOf]
  have pDes8 : ∀ x : String, "DESCRIPTION:".data.isPrefixOf ("URL:" ++ x).data = false := fun x => rfl
  have pDes9 : ∀ x : String, "DESCRIPTION:".data.isPrefixOf ("CATEGORIES:" ++ x).data = false := fun x => rfl
  have pDes10 : "DESCRIPTION:".data.isPrefixOf ("BEGIN:VEVENT" : String).data = false := by decide
  have pDes11 : "DESCRIPTION:".data.isPrefixOf ("STATUS:CONFIRMED" : String).data = false := by decide
  have pDes12 : "DESCRIPTION:".data.isPrefixOf ("TRANSP:TRANSPARENT" : String).data = false := by decide
  have pDes13 : "DESCRIPTION:".data.isPrefixOf ("END:VEVENT" : String).data = false := by decide
  have hall : (markerPresent "LOCATION:" (veLines dts sm s (if dateLt e0 s then s else e0)
        (e.location.getD "") (pyStrip (e.url.getD "")) (catsNorm (e.categories.getD ""))
        (e.description.getD "")) = true ↔ e.location.getD "" ≠ "")
      ∧ (markerPresent "URL:" (veLines dts sm s (if dateLt e0 s then s else e0)
        (e.location.getD "") (pyStrip (e.url.getD "")) (catsNorm (e.categories.getD ""))
        (e.description.getD "")) = true ↔ pyStrip (e.url.getD "") ≠ "")
      ∧ (markerPresent "CATEGORIES:" (veLines dts sm s (if dateLt e0 s then s else e0)
        (e.location.getD "") (pyStrip (e.url.getD "")) (catsNorm (e.categories.getD ""))
        (e.description.getD "")) = true ↔ catsNorm (e.categories.getD "") ≠ "")
      ∧ (markerPresent "DESCRIPTION:" (veLines dts sm s (if dateLt e0 s then s else e0)
        (e.location.getD "") (pyStrip (e.url.getD "")) (catsNorm (e.categories.getD ""))
        (e.description.getD "")) = true ↔
          (e.description.getD "" ≠ "" ∨ pyStrip (e.url.getD "") ≠ "")) := by
    by_cases hl : e.location.getD "" = "" <;>
      by_cases hd : e.description.getD "" = "" <;>
        by_cases hu : pyStrip (e.url.getD "") = "" <;>
          by_cases hc : catsNorm (e.categories.getD "") = "" <;>
            simp [markerPresent, veLines, hl, hd, hu, hc, List.any_append,
              pLoc1, pLoc2, pLoc3, pLoc4, pLoc5, pLoc6, pLoc7, pLoc8, pLoc9, pLoc10, pLoc11, pLoc12, pLoc13, pUrl1, pUrl2, pUrl3, pUrl4, pUrl5, pUrl6, pUrl7, pUrl8, pUrl9, pUrl10, pUrl11, pUrl12, pUrl13, pCat1, pCat2, pCat3, pCat4, pCat5, pCat6, pCat7, pCat8, pCat9, pCat10, pCat11, pCat12, pCat13, pDes1, pDes2, pDes3, pDes4, pDes5, pDes6, pDes7, pDes8, pDes9, pDes10, pDes11, pDes12, pDes13]
  exact ⟨hall.1, hall.2.1, hall.2.2.1, hall.2.2.2, fun t ht => esc_ne_empty t ht⟩

/-- Witness for amended C4: at `exUrlComma` the summary is escaped and
the url embedded verbatim in both the URL marker and the `More:` line;
at `exDescOnly` the description text is embedded escaped; at `exDescUrl`
the escaped description is joined to the verbatim `More:` line. -/
theorem claim_C4_escaping_except_url_witness :
    ("SUMMARY:Show") ∈ okLines defaultWindow "TS" exUrlComma
    ∧ ("URL:http://x.test/a,b") ∈ okLines defaultWindow "TS" exUrlComma
    ∧ ("DESCRIPTION:More: http://x.test/a,b") ∈ okLines defaultWindow "TS" exUrlComma
    ∧ ("DESCRIPTION:Hello\\, world\\; ok") ∈ okLines defaultWindow "TS" exDescOnly
    ∧ ("DESCRIPTION:Line1\\nLine2\\nMore: http://a.b") ∈ okLines defaultWindow "TS" exDescUrl
    ∧ noRawSep (esc "a,b;c").data = true := by
  have h1 := claim_C4_escaping_except_url defaultWindow "TS" exUrlComma
    (okLines defaultWindow "TS" exUrlComma) "Show" "2025-07-01" ⟨2025, 7, 1⟩ ⟨2025, 7, 1⟩
    rfl rfl rfl rfl rfl
  have h2 := claim_C4_escaping_except_url defaultWindow "TS" exDescOnly
    (okLines defaultWindow "TS" exDescOnly) "Talk" "2025-07-01" ⟨2025, 7, 1⟩ ⟨2025, 7, 1⟩
    rfl rfl rfl rfl rfl
  have h3 := claim_C4_escaping_except_url defaultWindow "TS" exDescUrl
    (okLines defaultWindow "TS" exDescUrl) "Gig" "2025-07-01" ⟨2025, 7, 1⟩ ⟨2025, 7, 1⟩
    rfl rfl rfl rfl rfl
  exact ⟨h1.1, h1.2.2.2.1 (by decide), h1.2.2.2.2.1 rfl (by decide),
    h2.2.2.2.2.2.1 (by decide) rfl,
    h3.2.2.2.2.2.2.1 (by decide) (by decide),
    h1.2.2.2.2.2.2.2 "a,b;c"⟩

/-- Witness for amended C5 at `exBlankLoc` (location `" "`): the
LOCATION marker is emitted, the other three are not. -/
theorem claim_C5_optional_markers_witness :
    markerPresent "LOCATION:" (okLines defaultWindow "TS" exBlankLoc) = true
    ∧ markerPresent "URL:" (okLines defaultWindow "TS" exBlankLoc) = false
    ∧ markerPresent "CATEGORIES:" (okLines defaultWindow "TS" exBlankLoc) = false
    ∧ markerPresent "DESCRIPTION:" (okLines defaultWindow "TS" exBlankLoc) = false
    ∧ esc "x" ≠ "" := by
  have h := claim_C5_optional_markers defaultWindow "TS" exBlankLoc
    (okLines defaultWindow "TS" exBlankLoc) "Walk" "2025-07-01" ⟨2025, 7, 1⟩ ⟨2025, 7, 1⟩
    rfl rfl rfl rfl rfl
  refine ⟨h.1.mpr (by decide), ?_, ?_, ?_, h.2.2.2.2 "x" (by decide)⟩
  · cases hb : markerPresent "URL:" (okLines defaultWindow "TS" exBlankLoc)
    · rfl
    · exact absurd (h.2.1.mp hb) (by decide)
  · cases hb : markerPresent "CATEGORIES:" (okLines defaultWindow "TS" exBlankLoc)
    · rfl
    · exact absurd (h.2.2.1.mp hb) (by decide)
  · cases hb : markerPresent "DESCRIPTION:" (okLines defaultWindow "TS" exBlankLoc)
    · rfl
    · exact absurd (h.2.2.2.1.mp hb) (by decide)

theorem startLe_trans {a b c : Entry} (h1 : startLe a b = true) (h2 : startLe b c = true) :
    startLe a c = true := dateLe_trans h1 h2

theorem startLe_of_not_startLe {a b : Entry} (h : ¬ startLe a b = true) : startLe b a = true :=
  dateLe_of_not_dateLe h

theorem startLe_refl_of_eq {a b : Entry} (h : a.1 = b.1) : startLe a b = true := by
  unfold startLe
  rw [h]
  exact dateLe_refl _

theorem mem_insertByStart {a x : Entry} {ys : List Entry} :
    a ∈ insertByStart x ys ↔ a = x ∨ a ∈ ys := by
  induction ys with
  | nil => simp [insertByStart]
  | cons y ys ih =>
    unfold insertByStart
    split
    · simp
    · simp [ih]
      tauto

theorem pairwise_insertByStart {x : Entry} {ys : List Entry}
    (h : ys.Pairwise (fun a b => startLe a b = true)) :
    (insertByStart x ys).Pairwise (fun a b => startLe a b = true) := by
  induction ys with
  | nil => simp [insertByStart]
  | cons y ys ih =>
    rw [List.pairwise_cons] at h
    unfold insertByStart
    split
    case isTrue hxy =>
      rw [List.pairwise_cons]
      refine ⟨?_, List.pairwise_cons.mpr h⟩
      intro b hb
      rcases List.mem_cons.mp hb with hb | hb
      · subst hb; exact hxy
      · exact startLe_trans hxy (h.1 b hb)
    case isFalse hxy =>
      rw [List.pairwise_cons]
      refine ⟨?_, ih h.2⟩
      intro b hb
      rcases mem_insertByStart.mp hb with hb | hb
      · subst hb; exact startLe_of_not_startLe hxy
      · exact h.1 b hb

theorem pairwise_sortByStart (l : List Entry) :
    (sortByStart l).Pairwise (fun a b => startLe a b = true) := by
  induction l with
  | nil => simp [sortByStart]
  | cons x xs ih => exact pairwise_insertByStart ih

theorem perm_insertByStart (x : Entry) (ys : List Entry) :
    List.Perm (insertByStart x ys) (x :: ys) := by
  induction ys with
  | nil => exact List.Perm.refl _
  | cons y ys ih =>
    unfold insertByStart
    split
    · exact List.Perm.refl _
    · exact List.Perm.trans (List.Perm.cons y ih) (List.Perm.swap x y ys)

theorem perm_sortByStart (l : List Entry) : List.Perm (sortByStart l) l := by
  induction l with
  | nil => exact List.Perm.refl _
  | cons x xs ih =>
    exact List.Perm.trans (perm_insertByStart x (sortByStart xs)) (List.Perm.cons x ih)

theorem filter_insertByStart (P : Entry → Bool)
    (hP : ∀ t t', P t = true → P t' = true → t.1 = t'.1) (x : Entry) (ys : List Entry) :
    (insertByStart x ys).filter P = (x :: ys).filter P := by
  induction ys with
  | nil => rfl
  | cons y ys ih =>
    unfold insertByStart
    split
    case isTrue hxy => rfl
    case isFalse hxy =>
      cases hpx : P x with
      | true =>
        have hpy : P y = false := by
          cases hpyc : P y
          · rfl
          · exact absurd (startLe_refl_of_eq (hP x y hpx hpyc)) hxy
        rw [List.filter_cons_of_neg (by simp [hpy]), ih,
          List.filter_cons_of_pos (by simp [hpx]),
          List.filter_cons_of_pos (by simp [hpx]),
          List.filter_cons_of_neg (by simp [hpy])]
      | false =>
        cases hpy : P y with
        | true =>
          rw [List.filter_cons_of_pos (by simp [hpy]), ih,
            List.filter_cons_of_neg (by simp [hpx]),
            List.filter_cons_of_neg (by simp [hpx]),
            List.filter_cons_of_pos (by simp [hpy])]
        | false =>
          rw [List.filter_cons_of_neg (by simp [hpy]), ih,
            List.filter_cons_of_neg (by simp [hpx]),
            List.filter_cons_of_neg (by simp [hpx]),
            List.filter_cons_of_neg (by simp [hpy])]

theorem filter_sortByStart (P : Entry → Bool)
    (hP : ∀ t t', P t = true → P t' = true → t.1 = t'.1) (l : List Entry) :
    (sortByStart l).filter P = l.filter P := by
  induction l with
  | nil => rfl
  | cons x xs ih =>
    have h1 := filter_insertByStart P hP x (sortByStart xs)
    rw [sortByStart, h1]
    cases hpx : P x with
    | true =>
      rw [List.filter_cons_of_pos (by simp [hpx]), ih,
        List.filter_cons_of_pos (by simp [hpx])]
    | false =>
      rw [List.filter_cons_of_neg (by simp [hpx]), ih,
        List.filter_cons_of_neg (by simp [hpx])]

theorem buildLoop_fst_sublist (w : Window) (dts : String) :
    ∀ (l : List Entry) (seen : List (String × String)),
      List.Sublist ((buildLoop w dts l seen).1.map Prod.fst) l := by
  intro l
  induction l with
  | nil =>
    intro seen
    simp [buildLoop]
  | cons t ts ih =>
    intro seen
    unfold buildLoop
    cases hb : build_vevent w dts t.2.2 with
    | ok ls =>
      simp only
      split
      · exact List.Sublist.cons t (ih seen)
      · simpa using List.Sublist.cons₂ t (ih (keyOf t :: seen))
    | missingField f =>
      simp only
      exact List.Sublist.cons t (ih seen)
    | badDate =>
      simp only
      exact List.Sublist.cons t (ih seen)
    | outOfWindow =>
      simp only
      exact List.Sublist.cons t (ih seen)

/-- Claim C3, amended: the emitted sequence is sorted by parsed start
date ascending; emitted events with equal start dates appear in their
load order (the sort is stable and uses only the start date — there is
no summary tie-break). -/
theorem claim_C3_sorted_by_start_stable (w : Window) (dts : String) (evs : List RawEvent) :
    ((mainEmitted w dts evs).map Prod.fst).Pairwise (fun a b => dateLe a.1 b.1 = true)
    ∧ ∀ s0 : Date,
        List.Sublist (((mainEmitted w dts evs).map Prod.fst).filter (fun t => t.1 == s0))
          ((cleanEvents evs).1.filter (fun t => t.1 == s0)) := by
  constructor
  · have hsub := buildLoop_fst_sublist w dts (sortByStart (cleanEvents evs).1) []
    have hpw := pairwise_sortByStart (cleanEvents evs).1
    exact List.Pairwise.sublist hsub hpw
  · intro s0
    have hsub := List.Sublist.filter (fun t => t.1 == s0)
      (buildLoop_fst_sublist w dts (sortByStart (cleanEvents evs).1) [])
    have hstable := filter_sortByStart (fun t => t.1 == s0)
      (by
        intro t t' ht ht'
        have h1 : t.1 = s0 := by simpa using ht
        have h2 : t'.1 = s0 := by simpa using ht'
        rw [h1, h2])
      (cleanEvents evs).1
    rw [hstable] at hsub
    exact hsub

theorem buildLoop_keys (w : Window) (dts : String) :
    ∀ (l : List Entry) (seen : List (String × String)),
      (∀ p ∈ (buildLoop w dts l seen).1, keyOf p.1 ∉ seen)
      ∧ ((buildLoop w dts l seen).1.map (fun p => keyOf p.1)).Nodup := by
  intro l
  induction l with
  | nil =>
    intro seen
    simp [buildLoop]
  | cons t ts ih =>
    intro seen
    unfold buildLoop
    cases hb : build_vevent w dts t.2.2 with
    | ok ls =>
      simp only
      split
      case isTrue hin => exact ih seen
      case isFalse hin =>
        constructor
        · intro p hp
          rcases List.mem_cons.mp hp with hp | hp
          · subst hp
            exact hin
          · have h1 := (ih (keyOf t :: seen)).1 p hp
            exact fun hmem => h1 (List.mem_cons_of_mem _ hmem)
        · simp only [List.map_cons]
          rw [List.nodup_cons]
          constructor
          · intro hmem
            rcases List.mem_map.mp hmem with ⟨p, hp, hkey⟩
            have h1 := (ih (keyOf t :: seen)).1 p hp
            apply h1
            rw [hkey]
            exact List.mem_cons_self _ _
          · exact (ih (keyOf t :: seen)).2
    | missingField f =>
      simp only
      exact ih seen
    | badDate =>
      simp only
      exact ih seen
    | outOfWindow =>
      simp only
      exact ih seen

theorem buildLoop_find (w : Window) (dts : String) :
    ∀ (l : List Entry) (seen : List (String × String)) (k : String × String), k ∉ seen →
      ((buildLoop w dts l seen).1.find? (fun p => keyOf p.1 == k)) =
        (l.find? (fun t => buildsOk w dts t && (keyOf t == k))).map
          (fun t => (t, builtLines w dts t)) := by
  intro l
  induction l with
  | nil =>
    intro seen k hk
    simp [buildLoop]
  | cons t ts ih =>
    intro seen k hk
    unfold buildLoop
    cases hb : build_vevent w dts t.2.2 with
    | ok ls =>
      have hok : buildsOk w dts t = true := by simp [buildsOk, hb]
      simp only
      split
      case isTrue hin =>
        have hne : (keyOf t == k) = false := by
          cases hqq : keyOf t == k
          · rfl
          · have heq : keyOf t = k := by simpa using hqq
            rw [heq] at hin
            exact absurd hin hk
        rw [List.find?_cons_of_neg _ (by simp [hok, hne])]
        exact ih seen k hk
      case isFalse hin =>
        cases hkt : keyOf t == k
        · have hknot : k ∉ keyOf t :: seen := by
            intro hm
            rcases List.mem_cons.mp hm with hm | hm
            · rw [hm] at hkt
              simp at hkt
            · exact hk hm
          rw [List.find?_cons_of_neg _ (by simp [hkt]),
            List.find?_cons_of_neg _ (by simp [hok, hkt])]
          exact ih (keyOf t :: seen) k hknot
        · rw [List.find?_cons_of_pos _ (by simp [hkt]),
            List.find?_cons_of_pos _ (by simp [hok, hkt])]
          simp [builtLines, okLines, hb]
    | missingField f =>
      have hok : buildsOk w dts t = false := by simp [buildsOk, hb]
      simp only
      rw [List.find?_cons_of_neg _ (by simp [hok])]
      exact ih seen k hk
    | badDate =>
      have hok : buildsOk w dts t = false := by simp [buildsOk, hb]
      simp only
      rw [List.find?_cons_of_neg _ (by simp [hok])]
      exact ih seen k hk
    | outOfWindow =>
      have hok : buildsOk w dts t = false := by simp [buildsOk, hb]
      simp only
      rw [List.find?_cons_of_neg _ (by simp [hok])]
      exact ih seen k hk

theorem cleanEntry_start {e : RawEvent} {t : Entry} (h : cleanEntry e = some t) :
    ∃ st, e.start = some st ∧ parse_ymd st = some t.1 ∧ t.2.2 = e := by
  unfold cleanEntry at h
  cases hst : e.start with
  | none =>
    simp only [hst] at h
    exact absurd h (by simp)
  | some st =>
    simp only [hst] at h
    cases hp1 : parse_ymd st with
    | none =>
      simp only [hp1] at h
      exact absurd h (by simp)
    | some s =>
      cases hp2 : parse_ymd (e.end_.getD st) with
      | none =>
        simp only [hp1, hp2] at h
        exact absurd h (by simp)
      | some e0 =>
        simp only [hp1, hp2, Option.some.injEq] at h
        subst h
        exact ⟨st, rfl, hp1, rfl⟩

theorem keyOf_start_eq {e e' : RawEvent} {t t' : Entry}
    (h : cleanEntry e = some t) (h' : cleanEntry e' = some t')
    (hk : keyOf t = keyOf t') : t.1 = t'.1 := by
  obtain ⟨st, _, hp, _⟩ := cleanEntry_start h
  obtain ⟨st', _, hp', _⟩ := cleanEntry_start h'
  have hb := parse_ymd_bounds hp
  have hb' := parse_ymd_bounds hp'
  have hiso : isoformat t.1 = isoformat t'.1 := congrArg Prod.snd hk
  exact isoformat_inj ⟨by omega, by omega, by omega⟩ ⟨by omega, by omega, by omega⟩ hiso

theorem mem_cleanEvents : ∀ {evs : List RawEvent} {t : Entry},
    t ∈ (cleanEvents evs).1 → cleanEntry t.2.2 = some t := by
  intro evs
  induction evs with
  | nil =>
    intro t ht
    simp [cleanEvents] at ht
  | cons e es ih =>
    intro t ht
    unfold cleanEvents at ht
    cases hc : cleanEntry e with
    | none =>
      rw [hc] at ht
      exact ih ht
    | some t0 =>
      rw [hc] at ht
      rcases List.mem_cons.mp ht with ht | ht
      · subst ht
        obtain ⟨st, hst, hp, h22⟩ := cleanEntry_start hc
        rw [h22]
        exact hc
      · exact ih ht

theorem find?_eq_head?_filter (p : Entry → Bool) (l : List Entry) :
    l.find? p = (l.filter p).head? := by
  induction l with
  | nil => rfl
  | cons x xs ih =>
    cases hp : p x
    · rw [List.find?_cons_of_neg _ (by simp [hp]), List.filter_cons_of_neg (by simp [hp])]
      exact ih
    · rw [List.find?_cons_of_pos _ (by simp [hp]), List.filter_cons_of_pos (by simp [hp])]
      rfl

/-- Claim C1, amended: no two emitted events share an identity key; and
for every key `k`, the emitted record carrying `k` (if any) is exactly
the record of the *first* entry in load order whose key is `k` among the
entries that pass validation and the window filter (`buildsOk`).  The
first conjunct is the `seen`-set guarantee; the second holds because the
sort is stable and entries sharing an identity key have equal parsed
start dates, so their load order survives sorting. -/
theorem claim_C1_dedup_first_wins (w : Window) (dts : String) (evs : List RawEvent)
    (k : String × String) :
    ((mainEmitted w dts evs).map (fun p => keyOf p.1)).Nodup
    ∧ (mainEmitted w dts evs).find? (fun p => keyOf p.1 == k) =
        ((cleanEvents evs).1.find? (fun t => buildsOk w dts t && (keyOf t == k))).map
          (fun t => (t, builtLines w dts t)) := by
  constructor
  · exact (buildLoop_keys w dts (sortByStart (cleanEvents evs).1) []).2
  · have h1 := buildLoop_find w dts (sortByStart (cleanEvents evs).1) [] k (by simp)
    rw [mainEmitted] at *
    rw [h1]
    congr 1
    rw [find?_eq_head?_filter, find?_eq_head?_filter]
    congr 1
    have hcongr1 : (sortByStart (cleanEvents evs).1).filter
          (fun t => buildsOk w dts t && (keyOf t == k)) =
        (sortByStart (cleanEvents evs).1).filter
          (fun t => (cleanEntry t.2.2 == some t) && (buildsOk w dts t && (keyOf t == k))) := by
      apply List.filter_congr
      intro x hx
      have hxc : x ∈ (cleanEvents evs).1 :=
        (perm_sortByStart (cleanEvents evs).1).mem_iff.mp hx
      have hwf : cleanEntry x.2.2 = some x := mem_cleanEvents hxc
      simp [hwf]
    have hcongr2 : ((cleanEvents evs).1).filter
          (fun t => (cleanEntry t.2.2 == some t) && (buildsOk w dts t && (keyOf t == k))) =
        ((cleanEvents evs).1).filter
          (fun t => buildsOk w dts t && (keyOf t == k)) := by
      apply List.filter_congr
      intro x hx
      have hwf : cleanEntry x.2.2 = some x := mem_cleanEvents hx
      simp [hwf]
    have hstable := filter_sortByStart
      (fun t => (cleanEntry t.2.2 == some t) && (buildsOk w dts t && (keyOf t == k)))
      (by
        intro t t' ht ht'
        simp only [Bool.and_eq_true, beq_iff_eq] at ht ht'
        exact keyOf_start_eq ht.1 ht'.1 (by rw [ht.2.2, ht'.2.2]))
      (cleanEvents evs).1
    rw [hcongr1, hstable, hcongr2]

theorem buildLoop_warnings (w : Window) (dts : String) :
    ∀ (l : List Entry) (seen : List (String × String)),
      (buildLoop w dts l seen).2 =
        l.filterMap (fun t => warnOfBuild (build_vevent w dts t.2.2)) := by
  intro l
  induction l with
  | nil =>
    intro seen
    simp [buildLoop]
  | cons t ts ih =>
    intro seen
    unfold buildLoop
    cases hb : build_vevent w dts t.2.2 with
    | ok ls =>
      have hw : warnOfBuild (build_vevent w dts t.2.2) = none := by
        rw [hb]
        rfl
      rw [List.filterMap_cons_none (f := fun u => warnOfBuild (build_vevent w dts u.2.2)) (a := t) hw]
      simp only
      split
      · exact ih seen
      · exact ih (keyOf t :: seen)
    | missingField f =>
      have hw : warnOfBuild (build_vevent w dts t.2.2) =
          some ("[warn] missing required field " ++ f) := by
        rw [hb]
        rfl
      rw [List.filterMap_cons_some (f := fun u => warnOfBuild (build_vevent w dts u.2.2)) (a := t) hw]
      simp only
      rw [ih seen]
    | badDate =>
      have hw : warnOfBuild (build_vevent w dts t.2.2) =
          some "[warn] bad date(s); skipping" := by
        rw [hb]
        rfl
      rw [List.filterMap_cons_some (f := fun u => warnOfBuild (build_vevent w dts u.2.2)) (a := t) hw]
      simp only
      rw [ih seen]
    | outOfWindow =>
      have hw : warnOfBuild (build_vevent w dts t.2.2) = none := by
        rw [hb]
        rfl
      rw [List.filterMap_cons_none (f := fun u => warnOfBuild (build_vevent w dts u.2.2)) (a := t) hw]
      simp only
      exact ih seen

theorem buildLoop_length (w : Window) (dts : String) :
    ∀ (l : List Entry) (seen : List (String × String)),
      ((l.filter (buildsOk w dts)).map keyOf).Nodup →
      (∀ p ∈ l, buildsOk w dts p = true → keyOf p ∉ seen) →
      (buildLoop w dts l seen).1.length = (l.filter (buildsOk w dts)).length := by
  intro l
  induction l with
  | nil =>
    intro seen _ _
    simp [buildLoop]
  | cons t ts ih =>
    intro seen hnd hdisj
    unfold buildLoop
    cases hb : build_vevent w dts t.2.2 with
    | ok ls =>
      have hok : buildsOk w dts t = true := by simp [buildsOk, hb]
      rw [List.filter_cons_of_pos (by simp [hok])] at hnd ⊢
      simp only [List.map_cons, List.nodup_cons] at hnd
      have hnotin : keyOf t ∉ seen := hdisj t (List.mem_cons_self t ts) hok
      simp only
      split
      case isTrue hin => exact absurd hin hnotin
      case isFalse hin =>
        simp only [List.length_cons]
        congr 1
        apply ih (keyOf t :: seen) hnd.2
        intro p hp hpok
        intro hmem
        rcases List.mem_cons.mp hmem with hm | hm
        · apply hnd.1
          rw [← hm]
          exact List.mem_map.mpr ⟨p, List.mem_filter.mpr ⟨hp, hpok⟩, rfl⟩
        · exact hdisj p (List.mem_cons_of_mem t hp) hpok hm
    | missingField f =>
      have hok : buildsOk w dts t = false := by simp [buildsOk, hb]
      rw [List.filter_cons_of_neg (by simp [hok])] at hnd ⊢
      simp only
      exact ih seen hnd (fun p hp => hdisj p (List.mem_cons_of_mem t hp))
    | badDate =>
      have hok : buildsOk w dts t = false := by simp [buildsOk, hb]
      rw [List.filter_cons_of_neg (by simp [hok])] at hnd ⊢
      simp only
      exact ih seen hnd (fun p hp => hdisj p (List.mem_cons_of_mem t hp))
    | outOfWindow =>
      have hok : buildsOk w dts t = false := by simp [buildsOk, hb]
      rw [List.filter_cons_of_neg (by simp [hok])] at hnd ⊢
      simp only
      exact ih seen hnd (fun p hp => hdisj p (List.mem_cons_of_mem t hp))

theorem cleanEvents_cons (x : RawEvent) (xs : List RawEvent) :
    cleanEvents (x :: xs) =
      (match cleanEntry x with
       | some t => (t :: (cleanEvents xs).1, (cleanEvents xs).2)
       | none =>
         ((cleanEvents xs).1,
           "[warn] skipping event due to date parse" :: (cleanEvents xs).2)) := rfl

theorem cleanEvents_append (l1 l2 : List RawEvent) :
    cleanEvents (l1 ++ l2) =
      ((cleanEvents l1).1 ++ (cleanEvents l2).1, (cleanEvents l1).2 ++ (cleanEvents l2).2) := by
  induction l1 with
  | nil => simp [cleanEvents]
  | cons e es ih =>
    rw [List.cons_append, cleanEvents_cons, cleanEvents_cons e es]
    cases hc : cleanEntry e <;> simp [hc, ih]

theorem cleanEvents_all_some {evs : List RawEvent}
    (h : ∀ e ∈ evs, (cleanEntry e).isSome = true) :
    (cleanEvents evs).1.length = evs.length ∧ (cleanEvents evs).2 = [] := by
  induction evs with
  | nil => simp [cleanEvents]
  | cons e es ih =>
    have hc := h e (List.mem_cons_self e es)
    cases hce : cleanEntry e with
    | none => rw [hce] at hc; simp at hc
    | some t0 =>
      have ihr := ih (fun x hx => h x (List.mem_cons_of_mem e hx))
      unfold cleanEvents
      rw [hce]
      simp [ihr.1, ihr.2]

theorem mem_cleanEvents_raw : ∀ {evs : List RawEvent} {t : Entry},
    t ∈ (cleanEvents evs).1 → t.2.2 ∈ evs := by
  intro evs
  induction evs with
  | nil =>
    intro t ht
    simp [cleanEvents] at ht
  | cons e es ih =>
    intro t ht
    unfold cleanEvents at ht
    cases hc : cleanEntry e with
    | none =>
      rw [hc] at ht
      exact List.mem_cons_of_mem e (ih ht)
    | some t0 =>
      rw [hc] at ht
      rcases List.mem_cons.mp ht with ht | ht
      · subst ht
        obtain ⟨st, hst, hp, h22⟩ := cleanEntry_start hc
        rw [h22]
        exact List.mem_cons_self e es
      · exact List.mem_cons_of_mem e (ih ht)

/-- Claim C9: a batch of N well-formed entries (valid, in-window,
distinct identity keys) plus one entry that is missing the required
`summary` field emits exactly N events, produces exactly one non-fatal
warning (for the invalid entry), and the run still returns success. -/
theorem claim_C9_missing_summary_nonfatal (w : Window) (dts : String)
    (goods : List RawEvent) (bad : RawEvent)
    (hbsum : bad.summary = none)
    (hbstart : (cleanEntry bad).isSome = true)
    (hgood : ∀ e ∈ goods, goodEntry w dts e = true)
    (hkeys : ((cleanEvents goods).1.map keyOf).Nodup) :
    (mainVevents w dts (goods ++ [bad])).length = goods.length
    ∧ mainWarnings w dts (goods ++ [bad]) = ["[warn] missing required field summary"]
    ∧ mainExitCode w dts (goods ++ [bad]) = 0 := by
  cases hcb : cleanEntry bad with
  | none =>
    rw [hcb] at hbstart
    simp at hbstart
  | some bt =>
    obtain ⟨st0, hst0, hp0, hbt22⟩ := cleanEntry_start hcb
    have hbuildbad : build_vevent w dts bt.2.2 = .missingField "summary" := by
      rw [hbt22]
      simp [build_vevent, hbsum]
    have hbadok : buildsOk w dts bt = false := by simp [buildsOk, hbuildbad]
    have hgs : ∀ e ∈ goods, (cleanEntry e).isSome = true := by
      intro e he
      have hg := hgood e he
      unfold goodEntry at hg
      cases hce : cleanEntry e with
      | none => rw [hce] at hg; simp at hg
      | some t0 => simp [hce]
    have hga := cleanEvents_all_some hgs
    have hba1 : (cleanEvents [bad]).1 = [bt] := by
      rw [cleanEvents_cons, hcb]
      rfl
    have hba2 : (cleanEvents [bad]).2 = [] := by
      rw [cleanEvents_cons, hcb]
      rfl
    have happ := cleanEvents_append goods [bad]
    have hokgoods : ∀ t ∈ (cleanEvents goods).1, buildsOk w dts t = true := by
      intro t ht
      have hre : t.2.2 ∈ goods := mem_cleanEvents_raw ht
      have hg := hgood _ hre
      have hce : cleanEntry t.2.2 = some t := mem_cleanEvents ht
      unfold goodEntry at hg
      simp only [hce] at hg
      exact hg
    have hallclean : (cleanEvents (goods ++ [bad])).1 = (cleanEvents goods).1 ++ [bt] := by
      rw [happ, hba1]
    have hfilter : ((cleanEvents (goods ++ [bad])).1).filter (buildsOk w dts) =
        (cleanEvents goods).1 := by
      rw [hallclean, List.filter_append, List.filter_eq_self.mpr hokgoods]
      simp [hbadok]
    have hperm := perm_sortByStart (cleanEvents (goods ++ [bad])).1
    have hfilterperm := List.Perm.filter (buildsOk w dts) hperm
    have hnd : (((sortByStart (cleanEvents (goods ++ [bad])).1).filter
        (buildsOk w dts)).map keyOf).Nodup := by
      apply (List.Perm.nodup_iff (List.Perm.map keyOf hfilterperm)).mpr
      rw [hfilter]
      exact hkeys
    have hlen := buildLoop_length w dts (sortByStart (cleanEvents (goods ++ [bad])).1) []
      hnd (by intro p _ _ hmem; exact absurd hmem (List.not_mem_nil _))
    refine ⟨?_, ?_, rfl⟩
    · rw [mainVevents, List.length_map, mainEmitted, hlen,
        List.Perm.length_eq hfilterperm, hfilter, hga.1]
    · have hwloop := buildLoop_warnings w dts (sortByStart (cleanEvents (goods ++ [bad])).1) []
      have hwperm := List.Perm.filterMap
        (fun t => warnOfBuild (build_vevent w dts t.2.2)) hperm
      have hwgoods : List.filterMap (fun t => warnOfBuild (build_vevent w dts t.2.2))
          (cleanEvents goods).1 = [] := by
        rw [List.filterMap_eq_nil_iff]
        intro t ht
        have hok := hokgoods t ht
        unfold buildsOk at hok
        cases hbb : build_vevent w dts t.2.2 <;> rw [hbb] at hok
        · simp at hok
        · simp at hok
        · simp at hok
        · rfl
      have hwbad : List.filterMap (fun t => warnOfBuild (build_vevent w dts t.2.2)) [bt] =
          ["[warn] missing required field summary"] := by
        rw [List.filterMap_cons_some (by rw [hbuildbad]; rfl)]
        rfl
      have hwall : List.filterMap (fun t => warnOfBuild (build_vevent w dts t.2.2))
          ((cleanEvents (goods ++ [bad])).1) = ["[warn] missing required field summary"] := by
        rw [hallclean, List.filterMap_append, hwgoods, hwbad]
        rfl
      have : (buildLoop w dts (sortByStart (cleanEvents (goods ++ [bad])).1) []).2 =
          ["[warn] missing required field summary"] := by
        rw [hwloop]
        apply List.Perm.eq_singleton
        rw [← hwall]
        exact hwperm
      rw [mainWarnings, this, happ, hga.2, hba2]
      rfl

/-- Witness for C9: two valid entries plus one entry with no summary —
two events emitted, one warning, success exit. -/
theorem claim_C9_missing_summary_nonfatal_witness :
    (mainVevents defaultWindow "TS" [exGood1, exGood2, exNoSummary]).length = 2
    ∧ mainWarnings defaultWindow "TS" [exGood1, exGood2, exNoSummary] =
        ["[warn] missing required field summary"]
    ∧ mainExitCode defaultWindow "TS" [exGood1, exGood2, exNoSummary] = 0 := by
  have h := claim_C9_missing_summary_nonfatal defaultWindow "TS" [exGood1, exGood2] exNoSummary
    rfl (by decide) (by decide) (by decide)
  exact ⟨h.1, h.2.1, h.2.2⟩
